import Mathlib

/-!
Shallow embedding of the promonet/promovits evaluation pipeline:
`promonet/interpolate/core.py` (grid-based feature interpolation) and
`promovits/evaluate/core.py` (evaluation orchestration: condition
derivation, alignment recovery, metric aggregation).
-/

namespace Promonet

/-- Interpolation methods accepted by `grid_sample` (the Python code
dispatches on the strings `'linear'`, `'nearest'`, `'slerp'`; any other
string raises `ValueError`, which the closed enumeration makes
unrepresentable). -/
inductive Method
  | linear
  | nearest
  | slerp
deriving DecidableEq

/-- Python exceptions observable from the embedded fragments. -/
inductive PyError
  | attributeError
  | indexError
  | zeroDivisionError
deriving DecidableEq

variable {α : Type} [LinearOrderedField α] [FloorRing α]

/-- The index array `xp = torch.arange(sequence.shape[-1])` of
`grid_sample`, as a list of field elements. -/
def xp (n : ℕ) : List α :=
  (List.range n).map (fun j : ℕ => (j : α))

/-- `torch.searchsorted(xp, x, right=True)` for `xp = arange(n)`: the
number of entries of `xp` that are `≤ x`. -/
def searchsortedRight (n : ℕ) (x : α) : ℕ :=
  (List.range n).countP (fun j : ℕ => decide ((j : α) ≤ x))

/-- `i = torch.clip(searchsorted(...), 1, len(xp) - 1)`; torch clamping
computes `min (max v lo) hi`. -/
def bracketIndex (n : ℕ) (x : α) : ℕ :=
  min (max (searchsortedRight n x) 1) (n - 1)

/-- The divisor `xp[i] - xp[i - 1]` of the linear-interpolation formula.
The clipped index is in `[1, n-1]` whenever `2 ≤ n`, so the list lookups
are in bounds and the `getD` defaults are never reached there. -/
def bracketDivisor (n : ℕ) (x : α) : α :=
  (xp n).getD (bracketIndex n x) 0 - (xp n).getD (bracketIndex n x - 1) 0

/-- One entry of the `'linear'` branch of `grid_sample`:
`(fp[i-1] * (xp[i] - x) + fp[i] * (x - xp[i-1])) / (xp[i] - xp[i-1])`. -/
def linearAt (sequence : List α) (x : α) : α :=
  let n := sequence.length
  let i := bracketIndex n x
  (sequence.getD (i - 1) 0 * ((xp n).getD i 0 - x) +
    sequence.getD i 0 * (x - (xp n).getD (i - 1) 0)) /
      bracketDivisor n x

/-- `torch.round`: round half to even. -/
def roundHalfEven (x : α) : ℤ :=
  if x - ⌊x⌋ < 1 / 2 then ⌊x⌋
  else if (1 : α) / 2 < x - ⌊x⌋ then ⌊x⌋ + 1
  else if ⌊x⌋ % 2 = 0 then ⌊x⌋ else ⌊x⌋ + 1

/-- Torch tensor indexing `fp[..., idx]` for an integer index: a negative
index wraps once from the end; an index out of range raises. -/
def torchIndex (sequence : List α) (idx : ℤ) : Option α :=
  let j := if idx < 0 then idx + sequence.length else idx
  if 0 ≤ j then sequence[j.toNat]? else none

/-- `grid_sample(sequence, grid, method)` from
`promonet/interpolate/core.py`.  The `'slerp'` branch reads
`ppgs.edit.grid.sample(sequence, grid)`, but the module-level name `ppgs`
is rebound by the function `ppgs` defined earlier in the same file, and a
function has no attribute `edit`: the branch raises `AttributeError`. -/
def grid_sample (sequence grid : List α) (method : Method) :
    Except PyError (List α) :=
  match method with
  | Method.linear => Except.ok (grid.map (linearAt sequence))
  | Method.nearest =>
    match grid.mapM (fun x => torchIndex sequence (roundHalfEven x)) with
    | some res => Except.ok res
    | none => Except.error PyError.indexError
  | Method.slerp => Except.error PyError.attributeError

/-- `pitch(sequence, grid)` from `promonet/interpolate/core.py`:
`2 ** grid_sample(torch.log2(sequence), grid)` (default method
`'linear'`). -/
noncomputable def pitch (sequence grid : List ℝ) : Except PyError (List ℝ) :=
  (grid_sample (sequence.map (fun v => Real.logb 2 v)) grid Method.linear).map
    (fun ys => ys.map (fun y => (2 : ℝ) ^ y))

/-- The identity grid `[0, 1, ..., n-1]` used by the exactness property. -/
def identityGrid (n : ℕ) : List α :=
  (List.range n).map (fun j : ℕ => (j : α))

end Promonet


namespace Promovits

/-- The constant ratio set `RATIOS = [.5, .717, 1.414, 2.]` of
`promovits/evaluate/core.py`, as rationals. -/
def ratios : List ℚ := [1 / 2, 717 / 1000, 1414 / 1000, 2]

/-- The same ratio set over the reals, for the loudness offset
`10 * log2(ratio)`. -/
noncomputable def ratiosR : List ℝ := [1 / 2, 717 / 1000, 1414 / 1000, 2]

/-- One utterance's per-condition feature record: the files
`<stem>-<condition>-<ratio>-{pitch,loudness,periodicity,phonemes,text,voicing}`
persisted next to each other by the condition-derivation loops. -/
structure Features (α : Type) where
  pitch : List α
  loudness : List α
  periodicity : List α
  phonemes : List ℤ
  text : String
  voicing : List Bool
deriving DecidableEq

/-- The two in-place masked assignments
`pitch[pitch < FMIN] = FMIN` then `pitch[pitch > FMAX] = FMAX`
applied after `pitch = ratio * torch.load(original_pitch_file)`
(lines 161-163 of `promovits/evaluate/core.py`). -/
def clampedShift (fmin fmax r : ℚ) (p : List ℚ) : List ℚ :=
  ((p.map (fun v => r * v)).map
    (fun v => if v < fmin then fmin else v)).map
      (fun v => if fmax < v then fmax else v)

/-- The pitch-shift condition: the shifted, clamped pitch contour is
persisted and the loudness, periodicity, phonemes, text and voicing
features are copied unchanged (lines 155-186). -/
def shiftedCondition (fmin fmax r : ℚ) (o : Features ℚ) : Features ℚ :=
  { o with pitch := clampedShift fmin fmax r o.pitch }

/-- The loudness-scale condition:
`loudness = 10 * torch.log2(torch.tensor(ratio)) + torch.load(...)`,
with periodicity, phonemes, pitch, text and voicing copied unchanged
(lines 292-319). -/
noncomputable def scaledCondition (r : ℝ) (o : Features ℝ) : Features ℝ :=
  { o with loudness := o.loudness.map (fun v => 10 * Real.logb 2 r + v) }

/-- Artifact paths on disk are abstracted as strings. -/
abbrev Path := String

/-- One entry of `zip(text_files, value, output_prefixes)` in the
alignment recovery stage: the text file, the generated audio file, and
the expected `<prefix>-alignment.json` artifact path. -/
structure AlignItem where
  textFile : Path
  audioFile : Path
  artifact : Path
deriving DecidableEq

/-- Lines 350-353: `file.unlink(missing_ok=True)` for the alignment
artifact of every output target, before the primary aligner runs. -/
def unlinkStale (fs : List Path) (items : List AlignItem) : List Path :=
  fs.filter (fun p => !(items.any (fun it => it.artifact == p)))

/-- The primary aligner (`pysodic.from_files_to_files`, lines 358-364)
writes alignment artifacts for the files it succeeds on; `produced` is
that set of artifact paths. -/
def primaryWrite (fs : List Path) (produced : List Path) : List Path :=
  fs ++ produced

/-- Lines 366-372: collect `(text_file, audio_file, output_file)` for
every item whose alignment artifact does not exist after the primary
aligner ran. -/
def retryArgs (fs : List Path) (items : List AlignItem) : List AlignItem :=
  items.filter (fun it => !(fs.contains it.artifact))

/-- The alignment recovery stage for one condition batch: unlink stale
artifacts, run the primary aligner, collect the failures, and decide
whether the fallback aligner is invoked (`if p2fa_args:`, line 375).
Returns the post-primary filesystem, the fallback argument list, and the
invocation flag. -/
def alignmentStage (fs : List Path) (items : List AlignItem)
    (produced : List Path) : List Path × List AlignItem × Bool :=
  let fs2 := primaryWrite (unlinkStale fs items) produced
  let args := retryArgs fs2 items
  (fs2, args, !args.isEmpty)

/-- Observable actions of the per-file objective-evaluation loop
(lines 431-458). -/
inductive Effect
  | metricUpdate
  | printException
  | debuggerBreak
  | appendFileResult
  | resetFileMetrics
deriving DecidableEq

/-- The per-file body of the objective-evaluation loop: when every
artifact loads, the metrics are updated; when loading or updating
raises, the handler prints the exception and then executes
`import pdb; pdb.set_trace()`, suspending the run in an interactive
debugger before the `pass` is reached.  Either way the file's raw
results are appended and the per-file metrics reset afterwards. -/
def evalFileTrace (loadOk : Bool) : List Effect :=
  (if loadOk then [Effect.metricUpdate]
   else [Effect.printException, Effect.debuggerBreak]) ++
    [Effect.appendFileResult, Effect.resetFileMetrics]

/-- An effect blocks the batch when it waits for interactive input. -/
def blocking (e : Effect) : Bool :=
  e == Effect.debuggerBreak

/-- Lines 549-557: `results['num_samples']` starts at `0` and the
`num_samples` entry of every per-speaker `results.json` found under the
results directory is added to it. -/
def aggregateNumSamples (speakerNumSamples : List ℕ) : ℕ :=
  speakerNumSamples.foldl (· + ·) 0

/-- Python division `value / n`: raises `ZeroDivisionError` when `n = 0`. -/
def pyDiv (v : ℚ) (n : ℕ) : Except Promonet.PyError ℚ :=
  if n = 0 then Except.error Promonet.PyError.zeroDivisionError
  else Except.ok (v / n)

/-- Lines 563-565: `results['benchmark']['average'] = {key: value /
results['num_samples'] for key, value in results['benchmark']['raw'].items()}`.
The comprehension evaluates one division per raw entry, left to right,
and raises on the first division by zero. -/
def benchmarkAverage (raw : List (Path × ℚ)) (numSamples : ℕ) :
    Except Promonet.PyError (List (Path × ℚ)) :=
  match raw with
  | [] => Except.ok []
  | kv :: rest =>
    match pyDiv kv.2 numSamples, benchmarkAverage rest numSamples with
    | Except.ok q, Except.ok qs => Except.ok ((kv.1, q) :: qs)
    | Except.error e, _ => Except.error e
    | Except.ok _, Except.error e => Except.error e

/-- The dataset-level benchmark aggregation: average the raw timing
totals over the summed per-speaker sample counts. -/
def datasetBenchmark (raw : List (Path × ℚ)) (speakerNumSamples : List ℕ) :
    Except Promonet.PyError (List (Path × ℚ)) :=
  benchmarkAverage raw (aggregateNumSamples speakerNumSamples)

end Promovits

namespace Promovits

/-- A concrete per-utterance feature record over the rationals, used to
instantiate the pitch-shift theorems. -/
def sampleFeatures : Features ℚ :=
  { pitch := [40, 100, 600]
    loudness := [-10]
    periodicity := [1 / 2]
    phonemes := [3]
    text := "a"
    voicing := [true] }

/-- A concrete per-utterance feature record over the reals, used to
instantiate the loudness-scale theorems. -/
def sampleFeaturesR : Features ℝ :=
  { pitch := [100]
    loudness := [-10, 0]
    periodicity := [1]
    phonemes := [3]
    text := "a"
    voicing := [true] }

end Promovits

namespace Promonet

variable {α : Type} [LinearOrderedField α]

lemma xp_length (n : ℕ) : (xp (α := α) n).length = n := by
  simp [xp]

lemma xp_getD (n k : ℕ) (h : k < n) : (xp (α := α) n).getD k 0 = (k : α) := by
  rw [xp, List.getD_eq_getElem _ _ (by simpa using h)]
  simp

lemma countP_range_le (n j : ℕ) :
    (List.range n).countP (fun k : ℕ => decide ((k : α) ≤ (j : α))) = min (j + 1) n := by
  induction n with
  | zero => simp
  | succ n ih =>
    rw [List.range_succ, List.countP_append, ih]
    by_cases h : n ≤ j
    · have : ((n : α) ≤ (j : α)) := by exact_mod_cast h
      simp only [List.countP_cons, List.countP_nil]
      rw [if_pos (by simpa using this)]
      omega
    · have : ¬ ((n : α) ≤ (j : α)) := by
        simpa using (by exact_mod_cast h : ¬ (n : ℕ) ≤ j)
      simp only [List.countP_cons, List.countP_nil]
      rw [if_neg (by simpa using this)]
      omega

lemma searchsortedRight_natCast (n j : ℕ) (h : j < n) :
    searchsortedRight (α := α) n (j : α) = j + 1 := by
  rw [searchsortedRight, countP_range_le]
  omega

lemma bracketIndex_pos (n : ℕ) (x : α) (h2 : 2 ≤ n) : 1 ≤ bracketIndex n x := by
  rw [bracketIndex]
  omega

lemma bracketIndex_le (n : ℕ) (x : α) : bracketIndex n x ≤ n - 1 := by
  rw [bracketIndex]
  omega

lemma bracketDivisor_eq_one (n : ℕ) (x : α) (h2 : 2 ≤ n) :
    bracketDivisor (α := α) n x = 1 := by
  have h1 : 1 ≤ bracketIndex n x := bracketIndex_pos n x h2
  have hlt : bracketIndex n x < n := by
    have := bracketIndex_le (α := α) n x
    omega
  have hlt' : bracketIndex n x - 1 < n := by omega
  rw [bracketDivisor, xp_getD _ _ hlt, xp_getD _ _ hlt']
  have : ((bracketIndex n x - 1 : ℕ) : α) = (bracketIndex n x : α) - 1 := by
    push_cast [h1]
    ring
  rw [this]
  ring

lemma linearAt_intPoint (sequence : List α) (j : ℕ) (h2 : 2 ≤ sequence.length)
    (hj : j < sequence.length) :
    linearAt sequence (j : α) = sequence.getD j 0 := by
  have hss : searchsortedRight (α := α) sequence.length (j : α) = j + 1 :=
    searchsortedRight_natCast _ _ hj
  rw [linearAt, bracketDivisor_eq_one _ _ h2]
  by_cases hend : j + 1 ≤ sequence.length - 1
  · have hi : bracketIndex sequence.length ((j : ℕ) : α) = j + 1 := by
      rw [bracketIndex, hss]
      omega
    rw [hi]
    have hj1 : j + 1 < sequence.length := by omega
    rw [xp_getD _ _ hj1]
    have : (j + 1 : ℕ) - 1 = j := by omega
    rw [this, xp_getD _ _ hj]
    push_cast
    ring_nf
  · -- here j = length - 1: the clip keeps the index at n - 1
    have hj' : j = sequence.length - 1 := by omega
    have hi : bracketIndex sequence.length ((j : ℕ) : α) = j := by
      rw [bracketIndex, hss]
      omega
    rw [hi, xp_getD _ _ hj]
    have hj1 : 1 ≤ j := by omega
    have hjm : j - 1 < sequence.length := by omega
    rw [xp_getD _ _ hjm]
    have hc : ((j - 1 : ℕ) : α) = (j : α) - 1 := by
      push_cast [hj1]
      ring
    rw [hc]
    ring_nf

end Promonet

namespace Promonet

variable {α : Type} [LinearOrderedField α]

lemma searchsortedRight_two (x : α) (h0 : 0 ≤ x) (h1 : x < 1) :
    searchsortedRight (α := α) 2 x = 1 := by
  have hx1 : ¬ ((1 : α) ≤ x) := not_le.mpr h1
  rw [searchsortedRight]
  simp [List.range_succ, h0, hx1]

lemma linearAt_pair (a b x : α) (h0 : 0 ≤ x) (h1 : x < 1) :
    linearAt [a, b] x = a * (1 - x) + b * x := by
  have hss : searchsortedRight (α := α) 2 x = 1 := searchsortedRight_two x h0 h1
  have hi : bracketIndex (α := α) 2 x = 1 := by
    rw [bracketIndex, hss]
    omega
  have hdiv : bracketDivisor (α := α) 2 x = 1 :=
    bracketDivisor_eq_one 2 x (by norm_num)
  rw [linearAt]
  have hlen : ([a, b] : List α).length = 2 := rfl
  simp only [hlen, hi, hdiv]
  simp [xp, List.range_succ]

end Promonet

open Promonet Promovits

/-- C5: For every sequence of length N >= 2, sampling it with the
identity grid [0, 1, ..., N-1] and method 'linear' returns the sequence
unchanged at every index. -/
theorem C5_linear_exact_at_identity_grid (sequence : List ℚ)
    (h2 : 2 ≤ sequence.length) :
    grid_sample sequence (identityGrid sequence.length) Method.linear =
      Except.ok sequence := by
  rw [grid_sample, identityGrid, List.map_map]
  congr 1
  apply List.ext_getElem
  · simp
  · intro i h1 h
    simp only [List.getElem_map, List.getElem_range, Function.comp_apply]
    have hi : i < sequence.length := by simpa using h1
    rw [linearAt_intPoint _ _ h2 hi, List.getD_eq_getElem _ _ hi]

/-- Witness for C5 at the concrete sequence [3, 7]. -/
theorem C5_witness :
    2 ≤ ([3, 7] : List ℚ).length ∧
    grid_sample ([3, 7] : List ℚ) (identityGrid ([3, 7] : List ℚ).length)
      Method.linear = Except.ok [3, 7] :=
  ⟨by decide, C5_linear_exact_at_identity_grid [3, 7] (by decide)⟩

/-- C8: the bracketing index array is the range [0..N-1]; the searched
index is clipped to [1, N-1], so the divisor xp[i] - xp[i-1] of the
linear-interpolation formula equals exactly 1 for every grid entry of
every sequence of length N >= 2 — the division never divides by zero,
for any grid, including ones that are not strictly increasing. -/
theorem C8_linear_divisor_is_one (sequence grid : List ℚ)
    (h2 : 2 ≤ sequence.length) :
    ∀ x ∈ grid,
      1 ≤ bracketIndex sequence.length x ∧
      bracketIndex sequence.length x ≤ sequence.length - 1 ∧
      bracketDivisor sequence.length x = 1 ∧
      bracketDivisor sequence.length x ≠ 0 := by
  intro x _
  refine ⟨bracketIndex_pos _ _ h2, bracketIndex_le _ _, ?_, ?_⟩
  · exact bracketDivisor_eq_one _ _ h2
  · rw [bracketDivisor_eq_one _ _ h2]
    norm_num

/-- Witness for C8 at the sequence [3, 7] and the non-monotonic grid
[3/2, 1/2]. -/
theorem C8_witness :
    2 ≤ ([3, 7] : List ℚ).length ∧ ((1 : ℚ) / 2 ∈ [(3 : ℚ) / 2, 1 / 2]) ∧
    bracketDivisor ([3, 7] : List ℚ).length ((1 : ℚ) / 2) = 1 :=
  ⟨by decide, by simp,
    (C8_linear_divisor_is_one [3, 7] [(3 : ℚ) / 2, 1 / 2] (by decide)
      ((1 : ℚ) / 2) (by simp)).2.2.1⟩

/-- C6 (failing input): at the constant sequence [5, 5] and the valid
grid [1/2], the 'linear' method returns the constant as the claim
states, but the 'slerp' method raises AttributeError — the module-level
name `ppgs` in `promonet/interpolate/core.py` is shadowed by the local
function `ppgs`, so `ppgs.edit.grid.sample` is an attribute access on a
function object. -/
theorem C6_constant_slerp_raises :
    grid_sample ([5, 5] : List ℚ) [1 / 2] Method.slerp =
      Except.error PyError.attributeError ∧
    grid_sample ([5, 5] : List ℚ) [1 / 2] Method.linear = Except.ok [5] := by
  constructor
  · rfl
  · simp [grid_sample, linearAt, bracketIndex, bracketDivisor,
      searchsortedRight, xp, List.range_succ]
    norm_num

/-- C4: grid-based pitch interpolation equals two raised to the linear
grid interpolation of the base-2 logarithm of the sequence; at the
sequence [100, 200] and grid point 1/2 it yields 100 * 2^(1/2), which is
not the arithmetic mean 150. -/
theorem C4_pitch_interpolates_in_log2_space :
    (∀ sequence grid : List ℝ,
      Promonet.pitch sequence grid =
        (grid_sample (sequence.map (fun v => Real.logb 2 v)) grid
          Method.linear).map (fun ys => ys.map (fun y => (2 : ℝ) ^ y))) ∧
    Promonet.pitch [100, 200] [1 / 2] =
      Except.ok [(100 : ℝ) * 2 ^ ((1 : ℝ) / 2)] ∧
    (100 : ℝ) * 2 ^ ((1 : ℝ) / 2) ≠ 150 := by
  refine ⟨fun sequence grid => rfl, ?_, ?_⟩
  · rw [Promonet.pitch]
    have hmap : ([100, 200] : List ℝ).map (fun v => Real.logb 2 v) =
        [Real.logb 2 100, Real.logb 2 200] := by simp
    rw [hmap, grid_sample]
    have hcalc : linearAt [Real.logb 2 100, Real.logb 2 200] ((1 : ℝ) / 2) =
        Real.logb 2 100 + 1 / 2 := by
      rw [linearAt_pair _ _ _ (by norm_num) (by norm_num)]
      have h200 : Real.logb 2 200 = Real.logb 2 100 + 1 := by
        have : (200 : ℝ) = 100 * 2 := by norm_num
        rw [this, Real.logb_mul (by norm_num) (by norm_num),
          Real.logb_self_eq_one (by norm_num)]
      rw [h200]
      ring
    simp only [List.map_cons, List.map_nil, hcalc, Except.map]
    have hpow : (2 : ℝ) ^ (Real.logb 2 100 + 1 / 2) =
        100 * 2 ^ ((1 : ℝ) / 2) := by
      rw [Real.rpow_add (by norm_num)]
      rw [Real.rpow_logb (by norm_num) (by norm_num) (by norm_num)]
    rw [hpow]
  · intro h
    have hsqrt : (2 : ℝ) ^ ((1 : ℝ) / 2) = Real.sqrt 2 := by
      rw [Real.sqrt_eq_rpow]
    rw [hsqrt] at h
    have h32 : Real.sqrt 2 = 3 / 2 := by linarith
    have hsq : Real.sqrt 2 * Real.sqrt 2 = 2 :=
      Real.mul_self_sqrt (by norm_num)
    rw [h32] at hsq
    norm_num at hsq

/-- C1: the fallback aligner argument list contains exactly the items
whose expected alignment artifact is absent after the primary aligner
ran, never an item whose artifact exists, and the fallback is invoked if
and only if that list is nonempty. -/
theorem C1_fallback_exactly_on_failures (fs : List Path)
    (items : List AlignItem) (produced : List Path) :
    (∀ it, it ∈ (alignmentStage fs items produced).2.1 ↔
      (it ∈ items ∧ it.artifact ∉ (alignmentStage fs items produced).1)) ∧
    ((alignmentStage fs items produced).2.2 = true ↔
      (alignmentStage fs items produced).2.1 ≠ []) := by
  constructor
  · intro it
    simp [alignmentStage, retryArgs]
  · simp [alignmentStage]

/-- C10: before the primary aligner runs, every item's alignment
artifact is unlinked, so after the primary aligner returns an artifact
exists at an item's path if and only if the primary aligner produced it
in the current run. -/
theorem C10_no_stale_artifacts (fs : List Path)
    (items : List AlignItem) (produced : List Path) :
    (∀ it ∈ items, it.artifact ∉ unlinkStale fs items) ∧
    (∀ it ∈ items,
      (it.artifact ∈ (alignmentStage fs items produced).1 ↔
        it.artifact ∈ produced)) := by
  have h1 : ∀ it ∈ items, it.artifact ∉ unlinkStale fs items := by
    intro it hit hmem
    rw [unlinkStale, List.mem_filter] at hmem
    rcases hmem with ⟨-, hp⟩
    simp at hp
    exact hp it hit rfl
  refine ⟨h1, ?_⟩
  intro it hit
  have : (alignmentStage fs items produced).1 =
      unlinkStale fs items ++ produced := rfl
  rw [this, List.mem_append]
  constructor
  · rintro (hl | hr)
    · exact absurd hl (h1 it hit)
    · exact hr
  · exact Or.inr

/-- C2 (failing input): when an artifact fails to load, the per-file
evaluation body prints the exception and then executes
`import pdb; pdb.set_trace()` — a blocking interactive-debugger effect —
before results are appended; the metric update is skipped.  A successful
file produces no blocking effect. -/
theorem C2_exception_handler_blocks :
    evalFileTrace false =
      [Effect.printException, Effect.debuggerBreak, Effect.appendFileResult,
        Effect.resetFileMetrics] ∧
    Effect.metricUpdate ∉ evalFileTrace false ∧
    (∃ e ∈ evalFileTrace false, blocking e = true) ∧
    (∀ e ∈ evalFileTrace true, blocking e = false) := by
  decide

/-- C9: every benchmark.average entry divides the corresponding
benchmark.raw total by the summed per-speaker num_samples; when that sum
is nonzero the aggregation succeeds with exactly those quotients, and
when it is zero (no speaker results, or no generated audio) the first
division raises ZeroDivisionError. -/
theorem C9_benchmark_average_division (raw : List (Path × ℚ))
    (speakerNumSamples : List ℕ) :
    (aggregateNumSamples speakerNumSamples ≠ 0 →
      datasetBenchmark raw speakerNumSamples =
        Except.ok (raw.map (fun kv =>
          (kv.1, kv.2 / (aggregateNumSamples speakerNumSamples : ℚ))))) ∧
    (aggregateNumSamples speakerNumSamples = 0 → raw ≠ [] →
      datasetBenchmark raw speakerNumSamples =
        Except.error Promonet.PyError.zeroDivisionError) := by
  constructor
  · intro hn
    rw [datasetBenchmark]
    induction raw with
    | nil => simp [benchmarkAverage]
    | cons kv rest ih =>
      rw [benchmarkAverage, pyDiv, if_neg hn]
      rw [List.map_cons]
      rw [show benchmarkAverage rest (aggregateNumSamples speakerNumSamples) =
        Except.ok (rest.map (fun kv =>
          (kv.1, kv.2 / (aggregateNumSamples speakerNumSamples : ℚ)))) from ih]
  · intro hn hne
    match raw with
    | kv :: rest =>
      rw [datasetBenchmark, benchmarkAverage, pyDiv, if_pos hn]

/-- C3: for every ratio in the ratio set, the shifted pitch contour is
the original multiplied elementwise by the ratio with values below FMIN
replaced by FMIN and values above FMAX replaced by FMAX; every element
of the result lies in [FMIN, FMAX], and loudness, periodicity, phonemes,
text and voicing are copied unchanged. -/
theorem C3_pitch_shift_clipped (fmin fmax r : ℚ) (hmm : fmin ≤ fmax)
    (_hr : r ∈ ratios) (o : Features ℚ) :
    (shiftedCondition fmin fmax r o).pitch =
      o.pitch.map (fun v =>
        if r * v < fmin then fmin
        else if fmax < r * v then fmax
        else r * v) ∧
    (∀ y ∈ (shiftedCondition fmin fmax r o).pitch, fmin ≤ y ∧ y ≤ fmax) ∧
    (shiftedCondition fmin fmax r o).loudness = o.loudness ∧
    (shiftedCondition fmin fmax r o).periodicity = o.periodicity ∧
    (shiftedCondition fmin fmax r o).phonemes = o.phonemes ∧
    (shiftedCondition fmin fmax r o).text = o.text ∧
    (shiftedCondition fmin fmax r o).voicing = o.voicing := by
  have hmap : (shiftedCondition fmin fmax r o).pitch =
      o.pitch.map (fun v =>
        if r * v < fmin then fmin
        else if fmax < r * v then fmax
        else r * v) := by
    show clampedShift fmin fmax r o.pitch = _
    rw [clampedShift, List.map_map, List.map_map]
    congr 1
    funext v
    simp only [Function.comp_apply]
    split_ifs with h1 h2 h3 <;> first
      | rfl
      | linarith
  refine ⟨hmap, ?_, rfl, rfl, rfl, rfl, rfl⟩
  intro y hy
  rw [hmap] at hy
  rcases List.mem_map.mp hy with ⟨v, -, rfl⟩
  split_ifs with h1 h2
  · exact ⟨le_refl _, hmm⟩
  · exact ⟨hmm, le_refl _⟩
  · exact ⟨le_of_not_lt h1, le_of_not_lt h2⟩

/-- Witness for C3 at FMIN = 50, FMAX = 550, ratio = 2 and a concrete
feature record. -/
theorem C3_witness :
    (50 : ℚ) ≤ 550 ∧ (2 : ℚ) ∈ ratios ∧
    (∀ y ∈ (shiftedCondition 50 550 2 sampleFeatures).pitch,
      (50 : ℚ) ≤ y ∧ y ≤ 550) :=
  ⟨by norm_num, by simp [ratios],
    (C3_pitch_shift_clipped 50 550 2 (by norm_num) (by simp [ratios])
      sampleFeatures).2.1⟩

/-- C7: for every ratio in the ratio set, the scaled loudness contour is
the original plus 10 * log2(ratio) at every element — strictly raised
when ratio > 1 and strictly lowered when ratio < 1 — and periodicity,
phonemes, pitch, text and voicing are copied unchanged. -/
theorem C7_loudness_scale_offset (r : ℝ) (hr : r ∈ ratiosR)
    (o : Features ℝ) :
    (scaledCondition r o).loudness =
      o.loudness.map (fun v => v + 10 * Real.logb 2 r) ∧
    (1 < r → ∀ i, i < o.loudness.length →
      o.loudness.getD i 0 < (scaledCondition r o).loudness.getD i 0) ∧
    (r < 1 → ∀ i, i < o.loudness.length →
      (scaledCondition r o).loudness.getD i 0 < o.loudness.getD i 0) ∧
    (scaledCondition r o).periodicity = o.periodicity ∧
    (scaledCondition r o).phonemes = o.phonemes ∧
    (scaledCondition r o).pitch = o.pitch ∧
    (scaledCondition r o).text = o.text ∧
    (scaledCondition r o).voicing = o.voicing := by
  have hpos : 0 < r := by
    simp only [ratiosR, List.mem_cons, List.not_mem_nil, or_false] at hr
    rcases hr with h | h | h | h <;> rw [h] <;> norm_num
  have hgetD : ∀ i, i < o.loudness.length →
      (scaledCondition r o).loudness.getD i 0 =
        o.loudness.getD i 0 + 10 * Real.logb 2 r := by
    intro i hi
    show (o.loudness.map (fun v => 10 * Real.logb 2 r + v)).getD i 0 = _
    rw [List.getD_eq_getElem _ _ (by simpa using hi),
      List.getD_eq_getElem _ _ hi, List.getElem_map]
    ring
  refine ⟨?_, ?_, ?_, rfl, rfl, rfl, rfl, rfl⟩
  · show o.loudness.map (fun v => 10 * Real.logb 2 r + v) = _
    congr 1
    funext v
    ring
  · intro h1r i hi
    rw [hgetD i hi]
    have : 0 < Real.logb 2 r := Real.logb_pos (by norm_num) h1r
    linarith
  · intro h1r i hi
    rw [hgetD i hi]
    have : Real.logb 2 r < 0 := Real.logb_neg (by norm_num) hpos h1r
    linarith

/-- Witness for C7 at ratio = 2 and a concrete feature record. -/
theorem C7_witness :
    (2 : ℝ) ∈ ratiosR ∧
    (scaledCondition 2 sampleFeaturesR).loudness =
      sampleFeaturesR.loudness.map (fun v => v + 10 * Real.logb 2 2) :=
  ⟨by rw [ratiosR]; simp,
    (C7_loudness_scale_offset 2 (by rw [ratiosR]; simp) sampleFeaturesR).1⟩

/-- Witness for C9 at one raw timing entry and two speaker results. -/
theorem C9_witness :
    datasetBenchmark [("steps", 6)] [2, 1] = Except.ok [("steps", 2)] := by
  have h := (C9_benchmark_average_division [("steps", 6)] [2, 1]).1
    (by decide)
  rw [h]
  norm_num [aggregateNumSamples]
